import Mathlib

/-!
Verification of the representApp backend's aggregation and classification
engine against its specification.

The Python sources embedded here:
* `src/backend/src/utils/ocd_parser.py` — `parse_government_level`, `parse_ocd_id`
* `src/backend/src/services/openstates.py` — `OpenStatesClient.get_representatives_by_division`
  (transform/dedup loop, single-page request with `per_page = 50`)
* `src/backend/src/handlers/address_lookup.py` — `AddressLookupHandler.handle`,
  `AddressLookupHandler._group_by_government_level`

Strings are modelled as Lean `String`/`List Char`; Python's `str.startswith`,
`in` (substring), `str.replace`, `str.split` and the concrete regular
expressions of `ocd_parser.py` are given direct executable definitions.
Fallible Python code (raising `ValueError`/`ApiException`) is modelled with
`Except`.
-/

namespace RepresentApp

/-- Python regex class `[a-z]` (ASCII lower-case letter). -/
def isLowerAZ (c : Char) : Bool := 'a' ≤ c && c ≤ 'z'

/-- Python regex class `[a-z_]` as used in the county/place patterns. -/
def isLowerUnd (c : Char) : Bool := isLowerAZ c || c = '_'

/-- Python `str.startswith` on character lists. -/
def listStartsWith : List Char → List Char → Bool
  | [], _ => true
  | _ :: _, [] => false
  | p :: ps, c :: cs => if p = c then listStartsWith ps cs else false

/-- Python `pattern in s` (substring containment) on character lists. -/
def containsSub (pat : List Char) : List Char → Bool
  | [] => listStartsWith pat []
  | c :: cs => listStartsWith pat (c :: cs) || containsSub pat cs

/-- One anchored step of `re.search(pat ++ cls+, s)`: the literal characters
`pat` must occur at the head of the input, immediately followed by at least
one character of the class `cls` (Python `+` needs one or more, so one
class character decides an anchored match). -/
def matchesAt : List Char → (Char → Bool) → List Char → Bool
  | [], cls, c :: _ => cls c
  | [], _, [] => false
  | p :: ps, cls, c :: cs => if p = c then matchesAt ps cls cs else false
  | _ :: _, _, [] => false

/-- Python `re.search(pat ++ cls+, s) is not None`: an anchored match at some
position of `s`. -/
def searchPat (pat : List Char) (cls : Char → Bool) : List Char → Bool
  | [] => false
  | c :: cs => matchesAt pat cls (c :: cs) || searchPat pat cls cs

/-- The root marker `"ocd-division/"` of an OCD identifier. -/
def ocdPrefixChars : List Char :=
  ['o', 'c', 'd', '-', 'd', 'i', 'v', 'i', 's', 'i', 'o', 'n', '/']

/-- The supported country code `"country:us"`. -/
def countryUsChars : List Char :=
  ['c', 'o', 'u', 'n', 't', 'r', 'y', ':', 'u', 's']

/-- The literal characters of the congressional-district key `"cd:"`. -/
def cdKw : List Char := ['c', 'd', ':']

/-- The literal characters of the county key `"county:"`. -/
def countyKw : List Char := ['c', 'o', 'u', 'n', 't', 'y', ':']

/-- The literal characters of the place key `"place:"`. -/
def placeKw : List Char := ['p', 'l', 'a', 'c', 'e', ':']

/-- The literal characters of the upper-chamber key `"sldu:"`. -/
def slduKw : List Char := ['s', 'l', 'd', 'u', ':']

/-- The literal characters of the lower-chamber key `"sldl:"`. -/
def sldlKw : List Char := ['s', 'l', 'd', 'l', ':']

/-- The literal characters of the state key `"state:"`. -/
def stateKw : List Char := ['s', 't', 'a', 't', 'e', ':']

/-- The literal characters of `"country:us/district:dc"` (the special
federal-district identifier body compared by equality in pattern 2). -/
def districtDcChars : List Char :=
  countryUsChars ++ ['/', 'd', 'i', 's', 't', 'r', 'i', 'c', 't', ':', 'd', 'c']

/-- The anchored part `"country:us/state:"` of the pattern-7 regex
`country:us/state:[a-z]{2}$` (used by `re.match`, hence anchored at the
start of the string). -/
def stateExactPat : List Char := countryUsChars ++ '/' :: stateKw

/-- Auxiliary scanner for Python `s.replace("ocd-division/", "")`: a `Nat`
counter skips the remaining characters of a just-recognized occurrence, so
that matches are consumed non-overlapping, left to right, exactly as
`str.replace` does. -/
def replaceOcdAux : Nat → List Char → List Char
  | _, [] => []
  | 0, c :: cs =>
      if listStartsWith ocdPrefixChars (c :: cs) then replaceOcdAux 12 cs
      else c :: replaceOcdAux 0 cs
  | k + 1, _ :: cs => replaceOcdAux k cs

/-- Python `s.replace("ocd-division/", "")`.  Note this removes *every*
occurrence of the root marker, not only a leading one — exactly what line 52
of `ocd_parser.py` does. -/
def replaceOcd (s : List Char) : List Char := replaceOcdAux 0 s

/-- Pattern 7 of `parse_government_level`:
`re.match(r"country:us/state:[a-z]{2}$", parts)` — anchored at the start,
exactly two ASCII lower-case letters after `"country:us/state:"`, then end of
string.  (Python's `$` would also accept one trailing newline; identifiers
with embedded newlines are not distinguished by any claim.) -/
def matchStateExact (parts : List Char) : Bool :=
  listStartsWith stateExactPat parts &&
    match parts.drop 17 with
    | [a, b] => isLowerAZ a && isLowerAZ b
    | _ => false

/-- `parse_government_level` from `src/backend/src/utils/ocd_parser.py`
(lines 15–88).  A raised `ValueError` is modelled as `.error` carrying the
formatted message.  Python's leading `if not ocd_id or not
ocd_id.startswith("ocd-division/")` collapses to the `startswith` test, since
the empty string never starts with the non-empty root marker.  Python's `\d`
additionally matches non-ASCII Unicode decimal digits; the claims are settled
on ASCII identifiers where the two coincide. -/
def parse_government_level (ocd_id : String) : Except String String :=
  if listStartsWith ocdPrefixChars ocd_id.data = false then
    .error ("Invalid OCD-ID format: " ++ ocd_id)
  else if containsSub countryUsChars ocd_id.data = false then
    .error ("Non-US OCD-ID not supported: " ++ ocd_id)
  else
    let parts := replaceOcd ocd_id.data
    if searchPat ('/' :: cdKw) Char.isDigit parts then .ok "federal"
    else if parts = countryUsChars ∨ parts = districtDcChars then .ok "federal"
    else if searchPat ('/' :: countyKw) isLowerUnd parts then .ok "local"
    else if searchPat ('/' :: placeKw) isLowerUnd parts then .ok "local"
    else if searchPat ('/' :: slduKw) Char.isDigit parts then .ok "state"
    else if searchPat ('/' :: sldlKw) Char.isDigit parts then .ok "state"
    else if matchStateExact parts then .ok "state"
    else if containsSub ('/' :: stateKw) parts then .ok "state"
    else .ok "local"

/-- Python `s.split("/")`: split at every slash, keeping empty pieces. -/
def splitOnSlash : List Char → List (List Char)
  | [] => [[]]
  | c :: cs =>
      if c = '/' then [] :: splitOnSlash cs
      else
        match splitOnSlash cs with
        | [] => [[c]]
        | p :: ps => (c :: p) :: ps

/-- Python `part.split(":", 1)` guarded by `":" in part`: `none` when the
piece has no colon, otherwise the text before and after the first colon. -/
def splitFirstColon : List Char → Option (List Char × List Char)
  | [] => none
  | c :: cs =>
      if c = ':' then some ([], cs)
      else
        match splitFirstColon cs with
        | none => none
        | some (k, v) => some (c :: k, v)

/-- Python `dict` assignment `d[k] = v`: overwrite in place when the key
exists (keeping its insertion position), else append at the end. -/
def dictUpsert : List (String × String) → String → String → List (String × String)
  | [], k, v => [(k, v)]
  | (k', v') :: rest, k, v =>
      if k' = k then (k', v) :: rest else (k', v') :: dictUpsert rest k v

/-- Python `d.get(k)` on the association-list model of a `dict`. -/
def dictGet : List (String × String) → String → Option String
  | [], _ => none
  | (k', v') :: rest, k => if k' = k then some v' else dictGet rest k

/-- The fixed priority list of division-type keys checked by
`parse_ocd_id` (line 136). -/
def divTypePriority : List String :=
  ["cd", "sldu", "sldl", "county", "place", "district"]

/-- `parse_ocd_id` from `src/backend/src/utils/ocd_parser.py` (lines 91–145):
validates the root marker, splits the de-prefixed identifier into `/`-pieces,
collects `key:value` components into an insertion-ordered mapping, records
the first division type of the priority list together with its value, and
finally stores the government level computed by `parse_government_level`
(whose `ValueError` — raised when `"country:us"` is absent — propagates). -/
def parse_ocd_id (ocd_id : String) : Except String (List (String × String)) :=
  if listStartsWith ocdPrefixChars ocd_id.data = false then
    .error ("Invalid OCD-ID format: " ++ ocd_id)
  else
    let pieces := splitOnSlash (replaceOcd ocd_id.data)
    let components := pieces.foldl
      (fun d part =>
        match splitFirstColon part with
        | some (k, v) => dictUpsert d (String.mk k) (String.mk v)
        | none => d) []
    let components :=
      match divTypePriority.find? (fun dt => (dictGet components dt).isSome) with
      | some dt =>
          dictUpsert (dictUpsert components "division_type" dt) "identifier"
            ((dictGet components dt).getD "")
      | none => components
    match parse_government_level ocd_id with
    | .error e => .error e
    | .ok lvl => .ok (dictUpsert components "government_level" lvl)

/-! ### Structured OCD identifiers

The claims about `parse_government_level` quantify over identifiers made of
the country root followed by recognized segments (state, county, place,
sldu, sldl, cd).  `Seg` is that segment alphabet and `fullId` renders a
segment list to the concrete identifier string fed to the parser. -/

/-- A single `type:value` segment of an OCD identifier. -/
inductive Seg where
  | state (a b : Char)
  | county (n : List Char)
  | place (n : List Char)
  | cd (d : List Char)
  | sldu (d : List Char)
  | sldl (d : List Char)
deriving DecidableEq

/-- The concrete characters of a segment (without the separating slash). -/
def Seg.render : Seg → List Char
  | .state a b => stateKw ++ [a, b]
  | .county n => countyKw ++ n
  | .place n => placeKw ++ n
  | .cd d => cdKw ++ d
  | .sldu d => slduKw ++ d
  | .sldl d => sldlKw ++ d

/-- Well-formedness of a segment per the OCD format the parser's regexes
recognize: two lower-case letters for a state, a non-empty `[a-z_]` name for
county/place, a non-empty digit string for district numbers. -/
def Seg.valid : Seg → Bool
  | .state a b => isLowerAZ a && isLowerAZ b
  | .county n => !n.isEmpty && n.all isLowerUnd
  | .place n => !n.isEmpty && n.all isLowerUnd
  | .cd d => !d.isEmpty && d.all Char.isDigit
  | .sldu d => !d.isEmpty && d.all Char.isDigit
  | .sldl d => !d.isEmpty && d.all Char.isDigit

/-- The identifier body after the country segment: a slash before each
rendered segment. -/
def body : List Seg → List Char
  | [] => []
  | g :: gs => '/' :: (g.render ++ body gs)

/-- The full identifier string `"ocd-division/country:us" + body`. -/
def fullId (gs : List Seg) : String :=
  String.mk (ocdPrefixChars ++ (countryUsChars ++ body gs))

/-! ### Lemmas about the string machinery -/

theorem listStartsWith_self_append (p t : List Char) :
    listStartsWith p (p ++ t) = true := by
  induction p with
  | nil => simp [listStartsWith]
  | cons c cs ih => simpa [listStartsWith] using ih

theorem mem_of_listStartsWith {p s : List Char} (h : listStartsWith p s = true) :
    ∀ c ∈ p, c ∈ s := by
  induction p generalizing s with
  | nil => simp
  | cons x xs ih =>
      cases s with
      | nil => simp [listStartsWith] at h
      | cons y ys =>
          simp only [listStartsWith] at h
          split at h
          · next heq =>
              intro c hc
              rcases List.mem_cons.1 hc with rfl | hc
              · exact heq ▸ List.mem_cons_self _ _
              · exact List.mem_cons_of_mem _ (ih h c hc)
          · exact absurd h (by simp)

theorem containsSub_self_append (p t : List Char) :
    containsSub p (p ++ t) = true := by
  cases p with
  | nil => cases t <;> simp [containsSub, listStartsWith]
  | cons c cs =>
      have h := listStartsWith_self_append (c :: cs) t
      rw [List.cons_append] at h
      simp [containsSub, h]

theorem containsSub_append_right (pat u t : List Char)
    (h : containsSub pat t = true) : containsSub pat (u ++ t) = true := by
  induction u with
  | nil => simpa using h
  | cons c cs ih => simp [containsSub, ih]

theorem replaceOcdAux_skip (u t : List Char) :
    replaceOcdAux u.length (u ++ t) = replaceOcdAux 0 t := by
  induction u with
  | nil => rfl
  | cons c cs ih => simpa [replaceOcdAux] using ih

theorem replaceOcd_cons_marker (t : List Char) :
    replaceOcd (ocdPrefixChars ++ t) = replaceOcdAux 0 t := by
  show replaceOcdAux 0 (ocdPrefixChars ++ t) = replaceOcdAux 0 t
  have hs : listStartsWith ocdPrefixChars (ocdPrefixChars ++ t) = true :=
    listStartsWith_self_append _ _
  have hrw : ocdPrefixChars ++ t =
      'o' :: (['c', 'd', '-', 'd', 'i', 'v', 'i', 's', 'i', 'o', 'n', '/'] ++ t) := rfl
  rw [hrw, replaceOcdAux, ← hrw, if_pos hs]
  exact replaceOcdAux_skip ['c', 'd', '-', 'd', 'i', 'v', 'i', 's', 'i', 'o', 'n', '/'] t

theorem replaceOcdAux_zero_of_no_dash {t : List Char} (h : '-' ∉ t) :
    replaceOcdAux 0 t = t := by
  induction t with
  | nil => rfl
  | cons c cs ih =>
      rw [replaceOcdAux, if_neg, ih (fun hm => h (List.mem_cons_of_mem _ hm))]
      intro hst
      exact h (mem_of_listStartsWith hst '-' (by decide))

theorem replaceOcd_full {t : List Char} (h : '-' ∉ t) :
    replaceOcd (ocdPrefixChars ++ t) = t := by
  rw [replaceOcd_cons_marker, replaceOcdAux_zero_of_no_dash h]

theorem matchesAt_append_slash {kw : List Char} {cls : Char → Bool}
    (hcs : cls '/' = false) (hkw : '/' ∉ kw) (l rest : List Char) :
    matchesAt kw cls (l ++ '/' :: rest) = matchesAt kw cls l := by
  induction l generalizing kw with
  | nil =>
      cases kw with
      | nil => simpa [matchesAt] using hcs
      | cons p ps =>
          have hp : p ≠ '/' := fun hp => hkw (hp ▸ List.mem_cons_self _ _)
          simp [matchesAt, hp]
  | cons c l' ih =>
      cases kw with
      | nil => simp [matchesAt]
      | cons p ps =>
          by_cases hpc : p = c
          · subst hpc
            simp only [List.cons_append, matchesAt, if_pos rfl]
            exact ih (fun hm => hkw (List.mem_cons_of_mem _ hm))
          · simp [matchesAt, hpc]

theorem matchesAt_self_cons (kw : List Char) (cls : Char → Bool)
    (c : Char) (r : List Char) : matchesAt kw cls (kw ++ c :: r) = cls c := by
  induction kw with
  | nil => rfl
  | cons p ps ih => simpa [matchesAt] using ih

theorem searchPat_append_noSlash {u : List Char} (kw : List Char)
    (cls : Char → Bool) (rest : List Char) (hu : '/' ∉ u) :
    searchPat ('/' :: kw) cls (u ++ rest) = searchPat ('/' :: kw) cls rest := by
  induction u with
  | nil => rfl
  | cons c u' ih =>
      have hc' : ('/' : Char) ≠ c := fun h => hu (by rw [← h]; exact List.mem_cons_self _ _)
      have hu' : '/' ∉ u' := fun hm => hu (List.mem_cons_of_mem _ hm)
      show (matchesAt ('/' :: kw) cls (c :: (u' ++ rest)) ||
        searchPat ('/' :: kw) cls (u' ++ rest)) = _
      rw [ih hu']
      simp [matchesAt, hc']

theorem body_eq_nil_or_slash (gs : List Seg) :
    body gs = [] ∨ ∃ r, body gs = '/' :: r := by
  cases gs with
  | nil => exact Or.inl rfl
  | cons g gs' => exact Or.inr ⟨_, rfl⟩

theorem searchPat_body {kw : List Char} {cls : Char → Bool} (gs : List Seg)
    (hcs : cls '/' = false) (hkw : '/' ∉ kw)
    (hns : ∀ g ∈ gs, '/' ∉ g.render) :
    searchPat ('/' :: kw) cls (body gs) =
      gs.any (fun g => matchesAt kw cls g.render) := by
  induction gs with
  | nil => rfl
  | cons g gs' ih =>
      have hng : '/' ∉ g.render := hns g (List.mem_cons_self _ _)
      have hns' : ∀ g' ∈ gs', '/' ∉ g'.render :=
        fun g' hm => hns g' (List.mem_cons_of_mem _ hm)
      have hhead : matchesAt kw cls (g.render ++ body gs') = matchesAt kw cls g.render := by
        rcases body_eq_nil_or_slash gs' with hb | ⟨r, hb⟩
        · rw [hb, List.append_nil]
        · rw [hb, matchesAt_append_slash hcs hkw]
      have htail : searchPat ('/' :: kw) cls (g.render ++ body gs') =
          gs'.any (fun g' => matchesAt kw cls g'.render) := by
        rw [searchPat_append_noSlash kw cls (body gs') hng, ih hns']
      show (matchesAt ('/' :: kw) cls ('/' :: (g.render ++ body gs')) ||
        searchPat ('/' :: kw) cls (g.render ++ body gs')) = _
      rw [htail]
      simp [matchesAt, hhead, List.any_cons]

theorem isLowerAZ_ne {c : Char} (h : isLowerAZ c = true) : c ≠ '/' ∧ c ≠ '-' := by
  refine ⟨?_, ?_⟩ <;> rintro rfl <;> exact absurd h (by decide)

theorem isLowerUnd_ne {c : Char} (h : isLowerUnd c = true) : c ≠ '/' ∧ c ≠ '-' := by
  refine ⟨?_, ?_⟩ <;> rintro rfl <;> exact absurd h (by decide)

theorem isDigit_ne {c : Char} (h : c.isDigit = true) : c ≠ '/' ∧ c ≠ '-' := by
  refine ⟨?_, ?_⟩ <;> rintro rfl <;> exact absurd h (by decide)

theorem valid_render_ne {g : Seg} (hv : g.valid = true) :
    ∀ c ∈ g.render, c ≠ '/' ∧ c ≠ '-' := by
  cases g with
  | state a b =>
      simp only [Seg.valid, Bool.and_eq_true] at hv
      intro c hc
      rcases List.mem_append.1 hc with h | h
      · exact (by decide : ∀ x ∈ stateKw, x ≠ '/' ∧ x ≠ '-') c h
      · simp only [List.mem_cons, List.not_mem_nil, or_false] at h
        rcases h with rfl | rfl
        · exact isLowerAZ_ne hv.1
        · exact isLowerAZ_ne hv.2
  | county n =>
      simp only [Seg.valid, Bool.and_eq_true] at hv
      intro c hc
      rcases List.mem_append.1 hc with h | h
      · exact (by decide : ∀ x ∈ countyKw, x ≠ '/' ∧ x ≠ '-') c h
      · exact isLowerUnd_ne (List.all_eq_true.1 hv.2 c h)
  | place n =>
      simp only [Seg.valid, Bool.and_eq_true] at hv
      intro c hc
      rcases List.mem_append.1 hc with h | h
      · exact (by decide : ∀ x ∈ placeKw, x ≠ '/' ∧ x ≠ '-') c h
      · exact isLowerUnd_ne (List.all_eq_true.1 hv.2 c h)
  | cd d =>
      simp only [Seg.valid, Bool.and_eq_true] at hv
      intro c hc
      rcases List.mem_append.1 hc with h | h
      · exact (by decide : ∀ x ∈ cdKw, x ≠ '/' ∧ x ≠ '-') c h
      · exact isDigit_ne (List.all_eq_true.1 hv.2 c h)
  | sldu d =>
      simp only [Seg.valid, Bool.and_eq_true] at hv
      intro c hc
      rcases List.mem_append.1 hc with h | h
      · exact (by decide : ∀ x ∈ slduKw, x ≠ '/' ∧ x ≠ '-') c h
      · exact isDigit_ne (List.all_eq_true.1 hv.2 c h)
  | sldl d =>
      simp only [Seg.valid, Bool.and_eq_true] at hv
      intro c hc
      rcases List.mem_append.1 hc with h | h
      · exact (by decide : ∀ x ∈ sldlKw, x ≠ '/' ∧ x ≠ '-') c h
      · exact isDigit_ne (List.all_eq_true.1 hv.2 c h)

theorem valid_render_no_slash {g : Seg} (hv : g.valid = true) : '/' ∉ g.render :=
  fun hm => (valid_render_ne hv _ hm).1 rfl

theorem body_no_dash {gs : List Seg} (hval : ∀ g ∈ gs, g.valid = true) :
    '-' ∉ body gs := by
  induction gs with
  | nil => simp [body]
  | cons g gs' ih =>
      simp only [body]
      intro hm
      rcases List.mem_cons.1 hm with h | h
      · exact absurd h (by decide)
      · rcases List.mem_append.1 h with h | h
        · exact (valid_render_ne (hval g (List.mem_cons_self _ _)) _ h).2 rfl
        · exact ih (fun g' hg => hval g' (List.mem_cons_of_mem _ hg)) h

theorem fullId_data (gs : List Seg) :
    (fullId gs).data = ocdPrefixChars ++ (countryUsChars ++ body gs) := rfl

/-- Evaluation of `parse_government_level` on a structured identifier: the
two validity checks pass, the `replace` leaves exactly the country part plus
the body, and every regex search reduces to a per-segment anchored match. -/
theorem parse_fullId (gs : List Seg) (hval : ∀ g ∈ gs, g.valid = true) :
    parse_government_level (fullId gs) =
      (if gs.any (fun g => matchesAt cdKw Char.isDigit g.render) then
        Except.ok "federal"
      else if countryUsChars ++ body gs = countryUsChars ∨
          countryUsChars ++ body gs = districtDcChars then Except.ok "federal"
      else if gs.any (fun g => matchesAt countyKw isLowerUnd g.render) then
        Except.ok "local"
      else if gs.any (fun g => matchesAt placeKw isLowerUnd g.render) then
        Except.ok "local"
      else if gs.any (fun g => matchesAt slduKw Char.isDigit g.render) then
        Except.ok "state"
      else if gs.any (fun g => matchesAt sldlKw Char.isDigit g.render) then
        Except.ok "state"
      else if matchStateExact (countryUsChars ++ body gs) then Except.ok "state"
      else if containsSub ('/' :: stateKw) (countryUsChars ++ body gs) then
        Except.ok "state"
      else Except.ok "local") := by
  have hstarts : listStartsWith ocdPrefixChars (fullId gs).data = true := by
    rw [fullId_data]; exact listStartsWith_self_append _ _
  have hcontains : containsSub countryUsChars (fullId gs).data = true := by
    rw [fullId_data]
    exact containsSub_append_right _ _ _ (containsSub_self_append _ _)
  have hnodash : '-' ∉ countryUsChars ++ body gs := by
    intro hm
    rcases List.mem_append.1 hm with h | h
    · exact absurd h (by decide)
    · exact body_no_dash hval h
  have hparts : replaceOcd (fullId gs).data = countryUsChars ++ body gs := by
    rw [fullId_data]; exact replaceOcd_full hnodash
  have hns : ∀ g ∈ gs, '/' ∉ g.render :=
    fun g hg => valid_render_no_slash (hval g hg)
  have hsearch : ∀ (kw : List Char) (cls : Char → Bool), cls '/' = false → '/' ∉ kw →
      searchPat ('/' :: kw) cls (countryUsChars ++ body gs) =
        gs.any (fun g => matchesAt kw cls g.render) := by
    intro kw cls h1 h2
    rw [searchPat_append_noSlash kw cls (body gs) (by decide),
      searchPat_body gs h1 h2 hns]
  have h1 := hsearch cdKw Char.isDigit (by decide) (by decide)
  have h2 := hsearch countyKw isLowerUnd (by decide) (by decide)
  have h3 := hsearch placeKw isLowerUnd (by decide) (by decide)
  have h4 := hsearch slduKw Char.isDigit (by decide) (by decide)
  have h5 := hsearch sldlKw Char.isDigit (by decide) (by decide)
  simp only [parse_government_level, hstarts, hcontains, hparts, h1, h2, h3, h4, h5]
  simp

/-- C1: for every identifier string built of the country root followed by
well-formed segments (county, place, sldu, sldl, state, cd in any number and
order) that contains a congressional-district segment `cd:<number>`,
`parse_government_level` returns `"federal"`, because the
congressional-district pattern is the first rule of the ordered sequence. -/
theorem parse_government_level_cd_federal (gs : List Seg)
    (hval : ∀ g ∈ gs, g.valid = true) (d : List Char) (hmem : Seg.cd d ∈ gs) :
    parse_government_level (fullId gs) = Except.ok "federal" := by
  rw [parse_fullId gs hval]
  have hv := hval _ hmem
  simp only [Seg.valid, Bool.and_eq_true] at hv
  have hany : gs.any (fun g => matchesAt cdKw Char.isDigit g.render) = true := by
    refine List.any_eq_true.2 ⟨Seg.cd d, hmem, ?_⟩
    cases d with
    | nil => exact absurd hv.1 (by simp [List.isEmpty])
    | cons c r =>
        rw [show (Seg.cd (c :: r)).render = cdKw ++ c :: r from rfl,
          matchesAt_self_cons]
        exact List.all_eq_true.1 hv.2 c (List.mem_cons_self _ _)
  rw [if_pos hany]

/-- Witness for C1 at the concrete identifier
`ocd-division/country:us/state:wa/county:king/cd:7`: all three classes of
other segments may surround the `cd` segment and the result is federal. -/
theorem parse_government_level_cd_federal_witness :
    parse_government_level
        (fullId [Seg.state 'w' 'a', Seg.county ['k', 'i', 'n', 'g'], Seg.cd ['7']]) =
      Except.ok "federal" :=
  parse_government_level_cd_federal
    [Seg.state 'w' 'a', Seg.county ['k', 'i', 'n', 'g'], Seg.cd ['7']]
    (by decide) ['7'] (by decide)

/-- C2: for every valid identifier of the exact form country root plus a
two-letter state segment, `parse_government_level` returns `"state"`, and
extending it with one county segment or one place segment yields `"local"`. -/
theorem parse_government_level_state_then_local (a b : Char) (n : List Char)
    (ha : isLowerAZ a = true) (hb : isLowerAZ b = true)
    (hn : n ≠ []) (hnall : n.all isLowerUnd = true) :
    parse_government_level (fullId [Seg.state a b]) = Except.ok "state" ∧
    parse_government_level (fullId [Seg.state a b, Seg.county n]) = Except.ok "local" ∧
    parse_government_level (fullId [Seg.state a b, Seg.place n]) = Except.ok "local" := by
  obtain ⟨c, r, rfl⟩ : ∃ c r, n = c :: r := by
    cases n with
    | nil => exact absurd rfl hn
    | cons c r => exact ⟨c, r, rfl⟩
  have hc : isLowerUnd c = true := List.all_eq_true.1 hnall c (List.mem_cons_self _ _)
  have hvs : (Seg.state a b).valid = true := by simp [Seg.valid, ha, hb]
  have hvc : (Seg.county (c :: r)).valid = true := by
    simp [Seg.valid, List.isEmpty, hnall]
  have hvp : (Seg.place (c :: r)).valid = true := by
    simp [Seg.valid, List.isEmpty, hnall]
  refine ⟨?_, ?_, ?_⟩
  · rw [parse_fullId [Seg.state a b] (by
      intro g hg
      simp only [List.mem_cons, List.not_mem_nil, or_false] at hg
      exact hg ▸ hvs)]
    have e1 : [Seg.state a b].any (fun g => matchesAt cdKw Char.isDigit g.render) = false := rfl
    have e2 : ¬(countryUsChars ++ body [Seg.state a b] = countryUsChars ∨
        countryUsChars ++ body [Seg.state a b] = districtDcChars) := by
      rintro (h | h) <;>
        · have hlen := congrArg List.length h
          simp [body, Seg.render, stateKw, countryUsChars, districtDcChars] at hlen
    have e3 : [Seg.state a b].any (fun g => matchesAt countyKw isLowerUnd g.render) = false := rfl
    have e4 : [Seg.state a b].any (fun g => matchesAt placeKw isLowerUnd g.render) = false := rfl
    have e5 : [Seg.state a b].any (fun g => matchesAt slduKw Char.isDigit g.render) = false := rfl
    have e6 : [Seg.state a b].any (fun g => matchesAt sldlKw Char.isDigit g.render) = false := rfl
    have e7 : matchStateExact (countryUsChars ++ body [Seg.state a b]) = true := by
      have hshape : countryUsChars ++ body [Seg.state a b] = stateExactPat ++ [a, b] := by
        simp [body, Seg.render, stateExactPat, stateKw]
      rw [hshape]
      have hdrop : (stateExactPat ++ [a, b]).drop 17 = [a, b] := List.drop_left' (by rfl)
      simp only [matchStateExact, listStartsWith_self_append, Bool.true_and, hdrop]
      simp [ha, hb]
    simp only [e1, e3, e4, e5, e6, e7]
    rw [if_neg (by simp), if_neg e2, if_neg (by simp), if_neg (by simp),
      if_neg (by simp), if_neg (by simp)]
    simp
  · rw [parse_fullId [Seg.state a b, Seg.county (c :: r)] (by
      intro g hg
      simp only [List.mem_cons, List.not_mem_nil, or_false] at hg
      rcases hg with rfl | rfl
      · exact hvs
      · exact hvc)]
    have e1 : [Seg.state a b, Seg.county (c :: r)].any
        (fun g => matchesAt cdKw Char.isDigit g.render) = false := rfl
    have e2 : ¬(countryUsChars ++ body [Seg.state a b, Seg.county (c :: r)] = countryUsChars ∨
        countryUsChars ++ body [Seg.state a b, Seg.county (c :: r)] = districtDcChars) := by
      rintro (h | h) <;>
        · have hlen := congrArg List.length h
          simp [body, Seg.render, stateKw, countyKw, countryUsChars, districtDcChars] at hlen
    have e3 : [Seg.state a b, Seg.county (c :: r)].any
        (fun g => matchesAt countyKw isLowerUnd g.render) = true := by
      have hm : matchesAt countyKw isLowerUnd (Seg.county (c :: r)).render = isLowerUnd c :=
        matchesAt_self_cons countyKw isLowerUnd c r
      simp [List.any_cons, List.any_nil, hm, hc]
    simp only [e1, e3]
    rw [if_neg (by simp), if_neg e2]
    simp
  · rw [parse_fullId [Seg.state a b, Seg.place (c :: r)] (by
      intro g hg
      simp only [List.mem_cons, List.not_mem_nil, or_false] at hg
      rcases hg with rfl | rfl
      · exact hvs
      · exact hvp)]
    have e1 : [Seg.state a b, Seg.place (c :: r)].any
        (fun g => matchesAt cdKw Char.isDigit g.render) = false := rfl
    have e2 : ¬(countryUsChars ++ body [Seg.state a b, Seg.place (c :: r)] = countryUsChars ∨
        countryUsChars ++ body [Seg.state a b, Seg.place (c :: r)] = districtDcChars) := by
      rintro (h | h) <;>
        · have hlen := congrArg List.length h
          simp [body, Seg.render, stateKw, placeKw, countryUsChars, districtDcChars] at hlen
    have e3 : [Seg.state a b, Seg.place (c :: r)].any
        (fun g => matchesAt countyKw isLowerUnd g.render) = false := rfl
    have e4 : [Seg.state a b, Seg.place (c :: r)].any
        (fun g => matchesAt placeKw isLowerUnd g.render) = true := by
      have hm : matchesAt placeKw isLowerUnd (Seg.place (c :: r)).render = isLowerUnd c :=
        matchesAt_self_cons placeKw isLowerUnd c r
      simp [List.any_cons, List.any_nil, hm, hc]
    simp only [e1, e3, e4]
    rw [if_neg (by simp), if_neg e2, if_neg (by simp)]
    simp

/-- Witness for C2 at the concrete state `wa` and county/place name `king`. -/
theorem parse_government_level_state_then_local_witness :
    parse_government_level (fullId [Seg.state 'w' 'a']) = Except.ok "state" ∧
    parse_government_level (fullId [Seg.state 'w' 'a', Seg.county ['k', 'i', 'n', 'g']]) =
      Except.ok "local" ∧
    parse_government_level (fullId [Seg.state 'w' 'a', Seg.place ['k', 'i', 'n', 'g']]) =
      Except.ok "local" :=
  parse_government_level_state_then_local 'w' 'a' ['k', 'i', 'n', 'g']
    (by decide) (by decide) (by decide) (by decide)

theorem pgl_ok_of {s : String} (h1 : listStartsWith ocdPrefixChars s.data = true)
    (h2 : containsSub countryUsChars s.data = true) :
    ∃ v, parse_government_level s = Except.ok v := by
  unfold parse_government_level
  rw [h1, h2]
  simp only [Bool.true_eq_false, if_false]
  repeat first | exact ⟨_, rfl⟩ | split

theorem pgl_error_of_starts {s : String}
    (h1 : listStartsWith ocdPrefixChars s.data = false) :
    parse_government_level s = Except.error ("Invalid OCD-ID format: " ++ s) := by
  unfold parse_government_level
  rw [h1]
  simp

theorem pgl_error_of_contains {s : String}
    (h1 : listStartsWith ocdPrefixChars s.data = true)
    (h2 : containsSub countryUsChars s.data = false) :
    parse_government_level s = Except.error ("Non-US OCD-ID not supported: " ++ s) := by
  unfold parse_government_level
  rw [h1, h2]
  simp

theorem poi_ok_of {s : String} (h1 : listStartsWith ocdPrefixChars s.data = true)
    (h2 : containsSub countryUsChars s.data = true) :
    ∃ c, parse_ocd_id s = Except.ok c := by
  obtain ⟨v, hv⟩ := pgl_ok_of h1 h2
  unfold parse_ocd_id
  rw [h1]
  simp only [Bool.true_eq_false, if_false, hv]
  exact ⟨_, rfl⟩

/-- C3: `parse_government_level` and `parse_ocd_id` raise `ValueError` (the
`InvalidIdentifier` failure) exactly when the input does not start with the
root marker `"ocd-division/"` or does not contain the country code
`"country:us"`; on every input satisfying both conditions, both return
normally. -/
theorem parse_error_iff (s : String) :
    ((∃ e, parse_government_level s = Except.error e) ↔
      (listStartsWith ocdPrefixChars s.data = false ∨
        containsSub countryUsChars s.data = false)) ∧
    ((∃ e, parse_ocd_id s = Except.error e) ↔
      (listStartsWith ocdPrefixChars s.data = false ∨
        containsSub countryUsChars s.data = false)) ∧
    ((listStartsWith ocdPrefixChars s.data = true ∧
        containsSub countryUsChars s.data = true) →
      (∃ v, parse_government_level s = Except.ok v) ∧
      (∃ c, parse_ocd_id s = Except.ok c)) := by
  by_cases h1 : listStartsWith ocdPrefixChars s.data = false
  · refine ⟨?_, ?_, ?_⟩
    · simp [pgl_error_of_starts h1, h1]
    · have : parse_ocd_id s = Except.error ("Invalid OCD-ID format: " ++ s) := by
        unfold parse_ocd_id
        rw [h1]
        simp
      simp [this, h1]
    · rintro ⟨ha, _⟩
      rw [ha] at h1
      exact absurd h1 (by simp)
  · have h1' : listStartsWith ocdPrefixChars s.data = true := by
      revert h1; cases listStartsWith ocdPrefixChars s.data <;> simp
    by_cases h2 : containsSub countryUsChars s.data = false
    · refine ⟨?_, ?_, ?_⟩
      · simp [pgl_error_of_contains h1' h2, h1', h2]
      · have : parse_ocd_id s = Except.error ("Non-US OCD-ID not supported: " ++ s) := by
          unfold parse_ocd_id
          rw [h1']
          simp only [Bool.true_eq_false, if_false, pgl_error_of_contains h1' h2]
        simp [this, h1', h2]
      · rintro ⟨_, hb⟩
        rw [hb] at h2
        exact absurd h2 (by simp)
    · have h2' : containsSub countryUsChars s.data = true := by
        revert h2; cases containsSub countryUsChars s.data <;> simp
      obtain ⟨v, hv⟩ := pgl_ok_of h1' h2'
      obtain ⟨c, hc⟩ := poi_ok_of h1' h2'
      refine ⟨?_, ?_, fun _ => ⟨⟨v, hv⟩, ⟨c, hc⟩⟩⟩
      · simp [hv, h1', h2']
      · simp [hc, h1', h2']

/-- Witness for C3 at the identifier `ocd-division/country:us/state:wa`,
which satisfies both validity conditions, so both functions return
normally. -/
theorem parse_error_iff_witness :
    (∃ v, parse_government_level "ocd-division/country:us/state:wa" = Except.ok v) ∧
    (∃ c, parse_ocd_id "ocd-division/country:us/state:wa" = Except.ok c) :=
  (parse_error_iff "ocd-division/country:us/state:wa").2.2 ⟨rfl, rfl⟩

/-! ### OpenStates client (`src/backend/src/services/openstates.py`)

`get_representatives_by_division` transforms the upstream JSON `results`
into `Representative` dictionaries, deduplicating by the upstream person id
(first seen wins).  Raw upstream records are modelled with optional fields
(`none` = key absent in the JSON object). -/

/-- The `party` field of an upstream record: a list of objects (each with an
optional `name`), a bare string, or anything else (including absent). -/
inductive PartyField where
  | plist (l : List (Option String))
  | pstr (s : String)
  | pother
deriving DecidableEq, Repr

/-- One raw upstream person record, with exactly the fields
`get_representatives_by_division` reads.  `links` holds each link object's
optional `url` value; `role_division_id = none` means `current_role` has no
`division_id` key, making the code fall back to the queried `ocd_id`. -/
structure RawPerson where
  id : Option String
  name : Option String
  role_title : Option String
  role_division_id : Option String
  party : PartyField
  email : Option String
  capitol_voice : Option String
  capitol_address : Option String
  links : List (Option String)
  jurisdiction_name : Option String
  image : Option String
deriving DecidableEq, Repr

/-- The canonical representative dictionary built at lines 207–219 of
`openstates.py`. -/
structure Rep where
  id : Option String
  name : String
  office : String
  party : Option String
  email : Option String
  phone : Option String
  address : Option String
  website : Option String
  photo_url : Option String
  government_level : String
  jurisdiction : String
deriving DecidableEq, Repr

/-- The website extraction loop (lines 187–192): the first link whose `url`
value is truthy (present and non-empty). -/
def firstTruthy : List (Option String) → Option String
  | [] => none
  | none :: rest => firstTruthy rest
  | some s :: rest => if s = "" then firstTruthy rest else some s

/-- Building one representative dictionary from a raw record (lines
170–219).  The tier is classified from the role's own `division_id`,
defaulting to the queried `ocd_id` when the key is absent; a `ValueError`
from that classification is caught and the `ocd_id` is classified instead
(whose own `ValueError`, if any, propagates). -/
def buildRep (ocd_id : String) (p : RawPerson) : Except String Rep :=
  let party : Option String :=
    match p.party with
    | .plist (x :: _) => x
    | .plist [] => none
    | .pstr s => some s
    | .pother => none
  let division_id := p.role_division_id.getD ocd_id
  let glE :=
    match parse_government_level division_id with
    | .ok l => Except.ok l
    | .error _ => parse_government_level ocd_id
  match glE with
  | .error e => .error e
  | .ok gl =>
      .ok { id := p.id
            name := p.name.getD ""
            office := p.role_title.getD ""
            party := party
            email := p.email
            phone := p.capitol_voice
            address := p.capitol_address
            website := firstTruthy p.links
            photo_url := p.image
            government_level := gl
            jurisdiction := p.jurisdiction_name.getD "Unknown" }

/-- The transform/dedup loop of lines 157–221: `seen` is the `seen_ids`
set, records whose id was already seen are skipped, and each kept record is
transformed (a raised error aborts the whole call, as in Python). -/
def transformGo (ocd_id : String) : List RawPerson → List (Option String) →
    Except String (List Rep)
  | [], _ => .ok []
  | p :: ps, seen =>
      if p.id ∈ seen then transformGo ocd_id ps seen
      else
        match buildRep ocd_id p with
        | .error e => .error e
        | .ok rep =>
            match transformGo ocd_id ps (p.id :: seen) with
            | .error e => .error e
            | .ok rest => .ok (rep :: rest)

/-- The whole transform loop started with an empty `seen_ids` set. -/
def transformLoop (ocd_id : String) (results : List RawPerson) :
    Except String (List Rep) :=
  transformGo ocd_id results []

/-- The fixed `per_page` request parameter of the single page request
(line 108: `'per_page': 50  # OpenStates API max is 50`). -/
def per_page : Nat := 50

/-- `OpenStatesClient.get_representatives_by_division` (lines 41–226) as a
function of the queried division id and of the upstream person table.  The
client issues exactly one request with `per_page = 50` and no pagination, so
the `results` array it processes is the first `per_page` records of the
upstream data; `parse_ocd_id` failures return `[]` (the `except ValueError`
branch), non-state divisions and missing/falsy state codes return `[]`, and
an empty `results` array returns `[]`. -/
def get_representatives_by_division (ocd_id : String)
    (upstream : List RawPerson) : Except String (List Rep) :=
  match parse_ocd_id ocd_id with
  | .error _ => .ok []
  | .ok parsed =>
      let state_code := dictGet parsed "state"
      let govt_level := dictGet parsed "government_level"
      if govt_level ≠ some "state" then .ok []
      else if state_code = none ∨ state_code = some "" then .ok []
      else
        let results := upstream.take per_page
        if results = [] then .ok []
        else transformLoop ocd_id results

/-! ### First-occurrence characterization of the dedup loop -/

/-- The sublist of records kept by the dedup loop: those whose id is neither
in `seen` nor on an earlier record of the list. -/
def firstOccs : List RawPerson → List (Option String) → List RawPerson
  | [], _ => []
  | p :: ps, seen =>
      if p.id ∈ seen then firstOccs ps seen
      else p :: firstOccs ps (p.id :: seen)

/-- Sequential `Except`-valued map (the loop body applied to each kept
record in order, first error aborting). -/
def mapE (f : RawPerson → Except String Rep) : List RawPerson →
    Except String (List Rep)
  | [] => .ok []
  | p :: ps =>
      match f p with
      | .error e => .error e
      | .ok rep =>
          match mapE f ps with
          | .error e => .error e
          | .ok rest => .ok (rep :: rest)

theorem transformGo_eq_mapE (ocd_id : String) (rs : List RawPerson)
    (seen : List (Option String)) :
    transformGo ocd_id rs seen = mapE (buildRep ocd_id) (firstOccs rs seen) := by
  induction rs generalizing seen with
  | nil => rfl
  | cons p ps ih =>
      by_cases hmem : p.id ∈ seen
      · rw [transformGo, if_pos hmem, firstOccs, if_pos hmem, ih]
      · rw [transformGo, if_neg hmem, firstOccs, if_neg hmem, mapE, ih]

theorem buildRep_id {ocd_id : String} {p : RawPerson} {rep : Rep}
    (h : buildRep ocd_id p = Except.ok rep) : rep.id = p.id := by
  simp only [buildRep] at h
  split at h
  · exact absurd h (by simp)
  · simp only [Except.ok.injEq] at h
    rw [← h]

theorem firstOccs_pairwise (rs : List RawPerson) (seen : List (Option String)) :
    (firstOccs rs seen).Pairwise (fun p q => p.id ≠ q.id) ∧
    ∀ p ∈ firstOccs rs seen, p.id ∉ seen := by
  induction rs generalizing seen with
  | nil => exact ⟨List.Pairwise.nil, by simp [firstOccs]⟩
  | cons p ps ih =>
      by_cases hm : p.id ∈ seen
      · rw [firstOccs, if_pos hm]
        exact ih seen
      · rw [firstOccs, if_neg hm]
        obtain ⟨hpw, hni⟩ := ih (p.id :: seen)
        refine ⟨List.Pairwise.cons ?_ hpw, ?_⟩
        · intro q hq he
          exact hni q hq (he ▸ List.mem_cons_self _ _)
        · intro q hq
          rcases List.mem_cons.1 hq with rfl | hq
          · exact hm
          · exact fun hin => hni q hq (List.mem_cons_of_mem _ hin)

theorem find_first_mem (rs : List RawPerson) (seen : List (Option String))
    (r : RawPerson) (hr : r ∈ rs) (hid : r.id ∉ seen) :
    ∃ first, rs.find? (fun p => p.id == r.id) = some first ∧
      first ∈ firstOccs rs seen ∧ first.id = r.id := by
  induction rs generalizing seen with
  | nil => cases hr
  | cons p ps ih =>
      by_cases hpr : p.id = r.id
      · refine ⟨p, ?_, ?_, hpr⟩
        · exact List.find?_cons_of_pos _ (beq_iff_eq.2 hpr)
        · rw [firstOccs, if_neg (hpr ▸ hid)]
          exact List.mem_cons_self _ _
      · have hfind : (p :: ps).find? (fun q => q.id == r.id) =
            ps.find? (fun q => q.id == r.id) :=
          List.find?_cons_of_neg _ (by simp [hpr])
        have hr' : r ∈ ps := by
          rcases List.mem_cons.1 hr with rfl | hr'
          · exact absurd rfl hpr
          · exact hr'
        by_cases hm : p.id ∈ seen
        · rw [firstOccs, if_pos hm, hfind]
          exact ih seen hr' hid
        · rw [firstOccs, if_neg hm, hfind]
          have hid' : r.id ∉ p.id :: seen := by
            intro hin
            rcases List.mem_cons.1 hin with he | hin
            · exact hpr he.symm
            · exact hid hin
          obtain ⟨first, h1, h2, h3⟩ := ih (p.id :: seen) hr' hid'
          exact ⟨first, h1, List.mem_cons_of_mem _ h2, h3⟩

theorem mapE_forall₂ {f : RawPerson → Except String Rep} {l : List RawPerson}
    {out : List Rep} (h : mapE f l = Except.ok out) :
    List.Forall₂ (fun p rep => f p = Except.ok rep) l out := by
  induction l generalizing out with
  | nil =>
      simp only [mapE, Except.ok.injEq] at h
      rw [← h]
      exact List.Forall₂.nil
  | cons p ps ih =>
      rw [mapE] at h
      cases hf : f p with
      | error e => rw [hf] at h; exact absurd h (by simp)
      | ok rep =>
          rw [hf] at h
          cases hrest : mapE f ps with
          | error e => rw [hrest] at h; exact absurd h (by simp)
          | ok rest =>
              rw [hrest] at h
              simp only [Except.ok.injEq] at h
              rw [← h]
              exact List.Forall₂.cons hf (ih hrest)

theorem forall₂_mem_left {R : RawPerson → Rep → Prop} {l : List RawPerson}
    {out : List Rep} (h : List.Forall₂ R l out) :
    ∀ a ∈ l, ∃ b ∈ out, R a b := by
  induction h with
  | nil => simp
  | cons hab _ ih =>
      intro a ha
      rcases List.mem_cons.1 ha with rfl | ha
      · exact ⟨_, List.mem_cons_self _ _, hab⟩
      · obtain ⟨b, hb, hr⟩ := ih a ha
        exact ⟨b, List.mem_cons_of_mem _ hb, hr⟩

theorem forall₂_map_id {ocd_id : String} {l : List RawPerson} {out : List Rep}
    (h : List.Forall₂ (fun p rep => buildRep ocd_id p = Except.ok rep) l out) :
    out.map Rep.id = l.map RawPerson.id := by
  induction h with
  | nil => rfl
  | cons hab _ ih => simp [ih, buildRep_id hab]

theorem nodup_map_inj {out : List Rep} (h : (out.map Rep.id).Nodup) :
    ∀ a ∈ out, ∀ b ∈ out, a.id = b.id → a = b := by
  intro a ha b hb hab
  exact List.inj_on_of_nodup_map h ha hb hab

/-- C4: the transform loop deduplicates by representative identifier with
first-seen wins: when it succeeds, the output identifiers are pairwise
distinct, and every input record is represented by exactly one output
representative — the one built from the *first* input record carrying that
identifier, so later duplicates never overwrite earlier data. -/
theorem transformLoop_dedup_first_wins (ocd_id : String)
    (results : List RawPerson) (out : List Rep)
    (h : transformLoop ocd_id results = Except.ok out) :
    (out.map Rep.id).Nodup ∧
    ∀ r ∈ results, ∃ first rep,
      results.find? (fun p => p.id == r.id) = some first ∧
      buildRep ocd_id first = Except.ok rep ∧
      rep ∈ out ∧ rep.id = r.id ∧
      (∀ rep2 ∈ out, rep2.id = r.id → rep2 = rep) := by
  rw [transformLoop, transformGo_eq_mapE] at h
  have hf2 := mapE_forall₂ h
  have hmap : out.map Rep.id = (firstOccs results []).map RawPerson.id :=
    forall₂_map_id hf2
  have hpw := (firstOccs_pairwise results []).1
  have hnd : (out.map Rep.id).Nodup := by
    rw [hmap]
    exact (List.pairwise_map).2 hpw
  refine ⟨hnd, ?_⟩
  intro r hr
  obtain ⟨first, hfind, hmem, hfid⟩ :=
    find_first_mem results [] r hr (by simp)
  obtain ⟨rep, hrepmem, hbuild⟩ := forall₂_mem_left hf2 first hmem
  have hrid : rep.id = r.id := by rw [buildRep_id hbuild, hfid]
  refine ⟨first, rep, hfind, hbuild, hrepmem, hrid, ?_⟩
  intro rep2 hrep2 hid2
  exact nodup_map_inj hnd rep2 hrep2 rep hrepmem (by rw [hid2, hrid])

/-- A sample division identifier used by concrete witnesses. -/
def sampleOcdId : String := "ocd-division/country:us/state:wa"

/-- A sample upstream record (complete fields). -/
def samplePerson1 : RawPerson :=
  { id := some "ocd-person/1"
    name := some "Alice Example"
    role_title := some "State Senator"
    role_division_id := some "ocd-division/country:us/state:wa/sldu:43"
    party := .plist [some "Democratic"]
    email := some "alice@example.gov"
    capitol_voice := some "360-000-0000"
    capitol_address := some "123 Capitol Way"
    links := [some "https://alice.example.gov"]
    jurisdiction_name := some "Washington"
    image := none }

/-- A second upstream record sharing `samplePerson1`'s identifier but
differing in every other field. -/
def samplePerson2 : RawPerson :=
  { id := some "ocd-person/1"
    name := some "Bob Other"
    role_title := some "State Representative"
    role_division_id := none
    party := .pstr "Republican"
    email := none
    capitol_voice := none
    capitol_address := none
    links := []
    jurisdiction_name := none
    image := some "https://bob.example/photo.jpg" }

/-- The transform loop's output on the two duplicate sample records. -/
def sampleDupOut : List Rep :=
  match transformLoop sampleOcdId [samplePerson1, samplePerson2] with
  | .ok l => l
  | .error _ => []

/-- Witness for C4: on two records sharing one identifier, the output
identifiers are pairwise distinct (hypothesis discharged by evaluating the
transform loop on the concrete records). -/
theorem transformLoop_dedup_first_wins_witness : (sampleDupOut.map Rep.id).Nodup :=
  (transformLoop_dedup_first_wins sampleOcdId [samplePerson1, samplePerson2]
    sampleDupOut (by rfl)).1

theorem firstOccs_length_le (rs : List RawPerson) (seen : List (Option String)) :
    (firstOccs rs seen).length ≤ rs.length := by
  induction rs generalizing seen with
  | nil => simp [firstOccs]
  | cons p ps ih =>
      by_cases hm : p.id ∈ seen
      · rw [firstOccs, if_pos hm]
        exact Nat.le_succ_of_le (ih seen)
      · rw [firstOccs, if_neg hm]
        simpa using ih (p.id :: seen)

/-- C10: the legislator-directory query for a division is one single page
request with `per_page` fixed at 50 and no pagination: every successful
result has at most 50 representatives, and the outcome is entirely
determined by the first 50 upstream records — upstream records beyond the
page are silently ignored (the return value is a bare list, with no warning
channel). -/
theorem get_representatives_by_division_single_page (ocd_id : String)
    (upstream : List RawPerson) :
    per_page = 50 ∧
    (∀ out, get_representatives_by_division ocd_id upstream = Except.ok out →
      out.length ≤ per_page) ∧
    get_representatives_by_division ocd_id upstream =
      get_representatives_by_division ocd_id (upstream.take per_page) := by
  refine ⟨rfl, ?_, ?_⟩
  · intro out h
    rw [get_representatives_by_division] at h
    cases hpoi : parse_ocd_id ocd_id with
    | error e =>
        rw [hpoi] at h
        simp only [Except.ok.injEq] at h
        rw [← h]
        simp
    | ok parsed =>
        rw [hpoi] at h
        simp only [] at h
        split at h
        · simp only [Except.ok.injEq] at h
          rw [← h]; simp
        · split at h
          · simp only [Except.ok.injEq] at h
            rw [← h]; simp
          · split at h
            · simp only [Except.ok.injEq] at h
              rw [← h]; simp
            · rw [transformLoop, transformGo_eq_mapE] at h
              have hlen := List.Forall₂.length_eq (mapE_forall₂ h)
              rw [← hlen]
              calc (firstOccs (upstream.take per_page) []).length
                  ≤ (upstream.take per_page).length := firstOccs_length_le _ _
                _ ≤ per_page := List.length_take_le _ _
  · have htt : (upstream.take per_page).take per_page = upstream.take per_page := by
      simp [List.take_take]
    simp only [get_representatives_by_division, htt]

/-- An upstream table of 51 identical records, one more than the page
size. -/
def sampleBigUpstream : List RawPerson := List.replicate 51 samplePerson1

/-- The client's output on the big sample table. -/
def sampleBigOut : List Rep :=
  match get_representatives_by_division sampleOcdId sampleBigUpstream with
  | .ok l => l
  | .error _ => []

/-- Witness for C10: on a 51-record upstream table the output length is
bounded by the page size (hypothesis discharged by evaluation). -/
theorem get_representatives_by_division_single_page_witness :
    sampleBigOut.length ≤ per_page :=
  (get_representatives_by_division_single_page sampleOcdId sampleBigUpstream).2.1
    sampleBigOut (by rfl)

/-! ### Address-lookup handler (`src/backend/src/handlers/address_lookup.py`)

`AddressLookupHandler.handle` implements Flow B: validate the address,
geocode it (`GoogleMapsClient.geocode`, modelled as an oracle returning
`none` on empty results), fetch representatives by coordinates, group them
by government level, and assemble the grouped response with metadata and
warnings.  The two collaborators are passed as function parameters. -/

/-- `ErrorCode` from `src/backend/src/utils/errors.py`, plus
`INVALID_COORDINATES`, which is modelled from the spec: §7 lists an
`InvalidCoordinates` (400) failure raised by the coordinate validation of
`OpenStatesClient.get_representatives_by_coordinates`, whose implementation
is not under `src/` (only its unit tests and its caller are). -/
inductive ErrorCode where
  | MISSING_PARAMETER
  | INVALID_ADDRESS
  | ADDRESS_NOT_FOUND
  | EXTERNAL_SERVICE_ERROR
  | RATE_LIMIT_EXCEEDED
  | INTERNAL_ERROR
  | INVALID_COORDINATES
deriving DecidableEq, Repr

/-- `ApiException`: machine-readable code, message, HTTP status. -/
structure ApiError where
  code : ErrorCode
  message : String
  status_code : Nat
deriving DecidableEq, Repr

/-- The dictionary returned by `GoogleMapsClient.geocode` on success
(latitude, longitude, formatted_address); the client returns `None` when
the geocoding results list is empty.  Coordinates are modelled as
rationals. -/
structure GeoResult where
  latitude : ℚ
  longitude : ℚ
  formatted_address : String
deriving DecidableEq

/-- Python `d.get(k)` on an association-list dictionary with values of any
type. -/
def alGet {β : Type} : List (String × β) → String → Option β
  | [], _ => none
  | (k', v) :: rest, k => if k' = k then some v else alGet rest k

/-- Python `grouped[key].append(r)`: append `r` to the list stored at
`key`, keeping all entries in place. -/
def alAppendAt (g : List (String × List Rep)) (key : String) (r : Rep) :
    List (String × List Rep) :=
  g.map (fun kv => if kv.1 = key then (kv.1, kv.2 ++ [r]) else kv)

/-- The loop of `_group_by_government_level` (lines 217–225): append each
representative to its level's bucket if that level is a key of the mapping,
else to `"state"`. -/
def groupGo : List Rep → List (String × List Rep) → List (String × List Rep)
  | [], g => g
  | r :: rs, g =>
      groupGo rs
        (if (alGet g r.government_level).isSome then
          alAppendAt g r.government_level r
        else alAppendAt g "state" r)

/-- `AddressLookupHandler._group_by_government_level` (lines 203–227):
start from the insertion-ordered mapping with the three empty buckets. -/
def group_by_government_level (reps : List Rep) : List (String × List Rep) :=
  groupGo reps [("federal", []), ("state", []), ("local", [])]

/-- Line 147: `total_count = sum(len(reps) for reps in
grouped_representatives.values())`. -/
def totalCount (g : List (String × List Rep)) : Nat :=
  (g.map (fun kv => kv.2.length)).sum

/-- Lines 148–150: `[level for level, reps in grouped.items() if len(reps)
> 0]` — dictionary iteration order is insertion order. -/
def governmentLevels (g : List (String × List Rep)) : List String :=
  (g.filter (fun kv => kv.2.length > 0)).map Prod.fst

/-- The zero-results warning string of line 155. -/
def noDataWarning : String := "No representative data available for this location"

/-- Lines 153–161: the warnings block.  `missing` is
`sorted(set(["federal", "state", "local"]) - set(government_levels))`,
expressed as the alphabetically-sorted universe
`["federal", "local", "state"]` filtered to the levels not present. -/
def buildWarnings (g : List (String × List Rep)) : List String :=
  let total := totalCount g
  let levels := governmentLevels g
  if total = 0 then [noDataWarning]
  else if levels.length < 3 then
    let missing := ["federal", "local", "state"].filter (fun t => t ∉ levels)
    if missing ≠ [] then
      ["Limited representative data: missing " ++ String.intercalate ", " missing ++
        " level representatives"]
    else []
  else []

/-- The metadata object of lines 178–183. -/
structure LookupMetadata where
  address : String
  coordinates : ℚ × ℚ
  total_count : Nat
  government_levels : List String
deriving DecidableEq

/-- The success response of lines 176–185. -/
structure LookupResponse where
  representatives : List (String × List Rep)
  metadata : LookupMetadata
  warnings : List String
deriving DecidableEq

/-- Python `str.strip()`: remove leading and trailing whitespace. -/
def pyStrip (s : String) : String :=
  String.mk (((s.data.dropWhile Char.isWhitespace).reverse.dropWhile
    Char.isWhitespace).reverse)

/-- `AddressLookupHandler.handle` (lines 61–201) as a function of the
address and of the two collaborators.  Python's
`if not address or not isinstance(address, str) or not address.strip()`
collapses to the emptiness test of the stripped address; a `None` geocoding
result raises `INVALID_ADDRESS` with status 400; collaborator
`ApiException`s are re-raised unchanged. -/
def handle (address : String) (geocode : String → Option GeoResult)
    (getRepsByCoords : ℚ → ℚ → Except ApiError (List Rep)) :
    Except ApiError LookupResponse :=
  if pyStrip address = "" then
    .error ⟨.MISSING_PARAMETER, "Address parameter is required and cannot be empty", 400⟩
  else
    match geocode (pyStrip address) with
    | none =>
        .error ⟨.INVALID_ADDRESS,
          "Address could not be geocoded. Please verify the address and try again.", 400⟩
    | some geo =>
        match getRepsByCoords geo.latitude geo.longitude with
        | .error e => .error e
        | .ok reps =>
            let grouped := group_by_government_level reps
            .ok { representatives := grouped
                  metadata :=
                    { address := geo.formatted_address
                      coordinates := (geo.latitude, geo.longitude)
                      total_count := totalCount grouped
                      government_levels := governmentLevels grouped }
                  warnings := buildWarnings grouped }

/-- Modelled from the spec: the coordinate validation of
`OpenStatesClient.get_representatives_by_coordinates` is code of this
repository that is not under `src/` (only its unit tests in
`tests/unit/services/test_openstates_geo.py` and its caller in
`address_lookup.py` are).  Spec §4.3: "latitude must lie in [-90, 90],
longitude in [-180, 180] inclusive; out-of-range values fail with
`InvalidCoordinates` before any network call."  The network request is an
oracle parameter and the returned `Bool` records whether it was issued. -/
def get_representatives_by_coordinates (lat lng : ℚ)
    (network : ℚ → ℚ → Except ApiError (List Rep)) :
    Except ApiError (List Rep) × Bool :=
  if lat < -90 ∨ 90 < lat then
    (.error ⟨.INVALID_COORDINATES, "Invalid latitude: must be between -90 and 90", 400⟩,
      false)
  else if lng < -180 ∨ 180 < lng then
    (.error ⟨.INVALID_COORDINATES, "Invalid longitude: must be between -180 and 180", 400⟩,
      false)
  else (network lat lng, true)

/-! ### Grouping characterization -/

theorem groupGo_acc (reps : List Rep) (f s l : List Rep) :
    groupGo reps [("federal", f), ("state", s), ("local", l)] =
      [("federal", f ++ reps.filter (fun r => r.government_level = "federal")),
       ("state", s ++ reps.filter (fun r =>
         r.government_level ≠ "federal" ∧ r.government_level ≠ "local")),
       ("local", l ++ reps.filter (fun r => r.government_level = "local"))] := by
  induction reps generalizing f s l with
  | nil => simp [groupGo]
  | cons r rs ih =>
      rw [groupGo]
      by_cases h1 : r.government_level = "federal"
      · have hsome : (alGet [("federal", f), ("state", s), ("local", l)]
            r.government_level).isSome = true := by simp [alGet, h1]
        have happ : alAppendAt [("federal", f), ("state", s), ("local", l)]
            r.government_level r = [("federal", f ++ [r]), ("state", s), ("local", l)] := by
          simp [alAppendAt, h1]
        rw [if_pos hsome, happ, ih]
        simp [List.filter_cons, h1]
      · by_cases h2 : r.government_level = "state"
        · have hsome : (alGet [("federal", f), ("state", s), ("local", l)]
              r.government_level).isSome = true := by simp [alGet, h2]
          have happ : alAppendAt [("federal", f), ("state", s), ("local", l)]
              r.government_level r = [("federal", f), ("state", s ++ [r]), ("local", l)] := by
            simp [alAppendAt, h2]
          rw [if_pos hsome, happ, ih]
          have h3 : r.government_level ≠ "local" := by rw [h2]; simp
          simp [List.filter_cons, h1, h2, h3]
        · by_cases h3 : r.government_level = "local"
          · have hsome : (alGet [("federal", f), ("state", s), ("local", l)]
                r.government_level).isSome = true := by simp [alGet, h3]
            have happ : alAppendAt [("federal", f), ("state", s), ("local", l)]
                r.government_level r =
                [("federal", f), ("state", s), ("local", l ++ [r])] := by
              simp [alAppendAt, h3]
            rw [if_pos hsome, happ, ih]
            simp [List.filter_cons, h1, h3]
          · have g1 : ¬("federal" = r.government_level) := fun h => h1 h.symm
            have g2 : ¬("state" = r.government_level) := fun h => h2 h.symm
            have g3 : ¬("local" = r.government_level) := fun h => h3 h.symm
            have hnone : (alGet [("federal", f), ("state", s), ("local", l)]
                r.government_level).isSome = false := by simp [alGet, g1, g2, g3]
            have happ : alAppendAt [("federal", f), ("state", s), ("local", l)]
                "state" r = [("federal", f), ("state", s ++ [r]), ("local", l)] := by
              simp [alAppendAt]
            rw [if_neg (by simp [hnone]), happ, ih]
            simp [List.filter_cons, h1, h2, h3]

/-- The grouped mapping is exactly the three fixed keys with the three
filters: federal and local by tier equality, state as the catch-all for
everything else. -/
theorem group_characterization (reps : List Rep) :
    group_by_government_level reps =
      [("federal", reps.filter (fun r => r.government_level = "federal")),
       ("state", reps.filter (fun r =>
         r.government_level ≠ "federal" ∧ r.government_level ≠ "local")),
       ("local", reps.filter (fun r => r.government_level = "local"))] := by
  have h := groupGo_acc reps [] [] []
  simpa [group_by_government_level] using h

/-- C5: the grouped response mapping has exactly the three keys
`"federal"`, `"state"`, `"local"` (each present even when its bucket is
empty); every input representative appears in exactly one of the three
buckets; and a representative whose tier is none of the three known keys is
placed under `"state"` (captured by the state-bucket membership condition:
anything that is neither federal nor local). -/
theorem grouped_response_three_keys (reps : List Rep) :
    ∃ bf bs bl,
      group_by_government_level reps =
        [("federal", bf), ("state", bs), ("local", bl)] ∧
      ∀ r ∈ reps,
        (r ∈ bf ↔ r.government_level = "federal") ∧
        (r ∈ bl ↔ r.government_level = "local") ∧
        (r ∈ bs ↔ (r.government_level ≠ "federal" ∧ r.government_level ≠ "local")) ∧
        ((r ∈ bf ∧ r ∉ bs ∧ r ∉ bl) ∨ (r ∉ bf ∧ r ∈ bs ∧ r ∉ bl) ∨
          (r ∉ bf ∧ r ∉ bs ∧ r ∈ bl)) := by
  refine ⟨_, _, _, group_characterization reps, ?_⟩
  intro r hr
  have hf : r ∈ reps.filter (fun q => q.government_level = "federal") ↔
      r.government_level = "federal" := by
    simp [List.mem_filter, hr]
  have hl : r ∈ reps.filter (fun q => q.government_level = "local") ↔
      r.government_level = "local" := by
    simp [List.mem_filter, hr]
  have hs : r ∈ reps.filter (fun q =>
      q.government_level ≠ "federal" ∧ q.government_level ≠ "local") ↔
      (r.government_level ≠ "federal" ∧ r.government_level ≠ "local") := by
    simp [List.mem_filter, hr]
  refine ⟨hf, hl, hs, ?_⟩
  by_cases c1 : r.government_level = "federal"
  · exact Or.inl ⟨hf.2 c1, fun hm => ((hs.1 hm).1 c1).elim,
      fun hm => by simp [hl.1 hm] at c1⟩
  · by_cases c2 : r.government_level = "local"
    · exact Or.inr (Or.inr ⟨fun hm => c1 (hf.1 hm), fun hm => ((hs.1 hm).2 c2).elim,
        hl.2 c2⟩)
    · exact Or.inr (Or.inl ⟨fun hm => c1 (hf.1 hm), hs.2 ⟨c1, c2⟩,
        fun hm => c2 (hl.1 hm)⟩)

/-- A representative with a tier outside the three known keys, used by
witnesses. -/
def sampleUnknownRep : Rep :=
  { id := some "ocd-person/9"
    name := "Terry Tribal"
    office := "Council Member"
    party := none
    email := none
    phone := none
    address := none
    website := none
    photo_url := none
    government_level := "tribal"
    jurisdiction := "Example Nation" }

/-- Witness for C5 at a one-element list whose representative has the
unknown tier `"tribal"`: the mapping still has exactly the three keys. -/
theorem grouped_response_three_keys_witness :
    (group_by_government_level [sampleUnknownRep]).map Prod.fst =
      ["federal", "state", "local"] := by
  obtain ⟨bf, bs, bl, heq, _⟩ := grouped_response_three_keys [sampleUnknownRep]
  rw [heq]
  rfl

theorem buildWarnings_zero (bf bs bl : List Rep)
    (h : totalCount [("federal", bf), ("state", bs), ("local", bl)] = 0) :
    buildWarnings [("federal", bf), ("state", bs), ("local", bl)] = [noDataWarning] := by
  simp [buildWarnings, h]

theorem buildWarnings_missing (bf bs bl : List Rep)
    (h : totalCount [("federal", bf), ("state", bs), ("local", bl)] ≠ 0)
    (hne : ["federal", "local", "state"].filter
      (fun t => t ∉ governmentLevels [("federal", bf), ("state", bs), ("local", bl)]) ≠ []) :
    buildWarnings [("federal", bf), ("state", bs), ("local", bl)] =
      ["Limited representative data: missing " ++
        String.intercalate ", " (["federal", "local", "state"].filter
          (fun t => t ∉ governmentLevels [("federal", bf), ("state", bs), ("local", bl)])) ++
        " level representatives"] := by
  by_cases p1 : 0 < bf.length <;> by_cases p2 : 0 < bs.length <;>
    by_cases p3 : 0 < bl.length <;>
    simp_all [buildWarnings, totalCount, governmentLevels]

/-- C6: with zero kept representatives the warnings are exactly the
no-data warning; otherwise, whenever some of the three expected tiers have
no kept representative, the warnings are exactly one entry naming the
missing tiers in alphabetical order (the sorted universe
`["federal", "local", "state"]` filtered to those absent); in particular a
kept tier set of `{federal}` yields the single warning naming exactly
`local` and `state`. -/
theorem warnings_coverage (reps : List Rep) :
    (totalCount (group_by_government_level reps) = 0 →
      buildWarnings (group_by_government_level reps) = [noDataWarning]) ∧
    (totalCount (group_by_government_level reps) ≠ 0 →
      ∀ missing, missing = ["federal", "local", "state"].filter
          (fun t => t ∉ governmentLevels (group_by_government_level reps)) →
        missing ≠ [] →
        buildWarnings (group_by_government_level reps) =
          ["Limited representative data: missing " ++
            String.intercalate ", " missing ++ " level representatives"]) ∧
    (reps ≠ [] → (∀ r ∈ reps, r.government_level = "federal") →
      buildWarnings (group_by_government_level reps) =
        ["Limited representative data: missing local, state level representatives"]) := by
  refine ⟨?_, ?_, ?_⟩
  · rw [group_characterization reps]
    exact buildWarnings_zero _ _ _
  · rw [group_characterization reps]
    intro ht missing hm hne
    rw [hm] at hne ⊢
    exact buildWarnings_missing _ _ _ ht hne
  · intro hne hall
    have hbf : reps.filter (fun r => r.government_level = "federal") = reps :=
      List.filter_eq_self.2 (fun r hr => by simp [hall r hr])
    have hbs : reps.filter (fun r =>
        r.government_level ≠ "federal" ∧ r.government_level ≠ "local") = [] := by
      rw [List.filter_eq_nil_iff]
      intro r hr
      simp [hall r hr]
    have hbl : reps.filter (fun r => r.government_level = "local") = [] := by
      rw [List.filter_eq_nil_iff]
      intro r hr
      simp [hall r hr]
    rw [group_characterization reps, hbf, hbs, hbl]
    have hlen : 0 < reps.length := List.length_pos.2 hne
    have htot : totalCount [("federal", reps), ("state", []), ("local", [])] ≠ 0 := by
      simp only [totalCount, List.map_cons, List.map_nil, List.sum_cons, List.sum_nil,
        List.length_nil]
      omega
    have hlev : governmentLevels [("federal", reps), ("state", []), ("local", [])] =
        ["federal"] := by
      simp [governmentLevels, hlen]
    simp [buildWarnings, htot, hlev]
    rfl

/-- Witness for C6: one federal representative yields exactly the
`local, state` coverage warning (hypotheses discharged on the concrete
one-element list). -/
theorem warnings_coverage_witness :
    buildWarnings (group_by_government_level
        [{ sampleUnknownRep with government_level := "federal" }]) =
      ["Limited representative data: missing local, state level representatives"] :=
  (warnings_coverage [{ sampleUnknownRep with government_level := "federal" }]).2.2
    (by simp) (by simp)

/-- C7: whenever geocoding yields no result for a (non-blank) address, the
Flow B handler fails with the `INVALID_ADDRESS` error carrying HTTP status
400, and never returns a success response. -/
theorem handle_invalid_address (address : String)
    (geocode : String → Option GeoResult)
    (getRepsByCoords : ℚ → ℚ → Except ApiError (List Rep))
    (hne : ¬pyStrip address = "")
    (hgeo : geocode (pyStrip address) = none) :
    handle address geocode getRepsByCoords =
      Except.error ⟨ErrorCode.INVALID_ADDRESS,
        "Address could not be geocoded. Please verify the address and try again.", 400⟩ ∧
    ∀ resp, ¬handle address geocode getRepsByCoords = Except.ok resp := by
  have h : handle address geocode getRepsByCoords =
      Except.error ⟨ErrorCode.INVALID_ADDRESS,
        "Address could not be geocoded. Please verify the address and try again.", 400⟩ := by
    rw [handle, if_neg hne, hgeo]
  exact ⟨h, fun resp hok => by rw [h] at hok; cases hok⟩

/-- A geocoding oracle that never resolves any address. -/
def noResultGeocode : String → Option GeoResult := fun _ => none

/-- A directory oracle returning no representatives. -/
def emptyGetReps : ℚ → ℚ → Except ApiError (List Rep) := fun _ _ => .ok []

/-- Witness for C7 at the address `"InvalidAddressXYZ123"` with a geocoder
that yields no result. -/
theorem handle_invalid_address_witness :
    handle "InvalidAddressXYZ123" noResultGeocode emptyGetReps =
      Except.error ⟨ErrorCode.INVALID_ADDRESS,
        "Address could not be geocoded. Please verify the address and try again.", 400⟩ :=
  (handle_invalid_address "InvalidAddressXYZ123" noResultGeocode emptyGetReps
    (by decide) rfl).1

/-- C8 (spec-modelled): a latitude outside `[-90, 90]` or a longitude
outside `[-180, 180]` makes the coordinate lookup fail with
`INVALID_COORDINATES` before the legislator-directory network request is
issued (the issued-flag is `false` and the result is the validation error
for every network oracle); for in-range coordinates no validation error is
raised — the call reduces to the network request itself. -/
theorem coordinates_validated (lat lng : ℚ)
    (network : ℚ → ℚ → Except ApiError (List Rep)) :
    ((lat < -90 ∨ 90 < lat ∨ lng < -180 ∨ 180 < lng) →
      (get_representatives_by_coordinates lat lng network).2 = false ∧
      ∃ msg, (get_representatives_by_coordinates lat lng network).1 =
        Except.error ⟨ErrorCode.INVALID_COORDINATES, msg, 400⟩) ∧
    ((-90 ≤ lat ∧ lat ≤ 90 ∧ -180 ≤ lng ∧ lng ≤ 180) →
      get_representatives_by_coordinates lat lng network = (network lat lng, true)) := by
  constructor
  · intro h
    by_cases hlat : lat < -90 ∨ 90 < lat
    · rw [get_representatives_by_coordinates, if_pos hlat]
      exact ⟨rfl, _, rfl⟩
    · have hlng : lng < -180 ∨ 180 < lng := by
        rcases h with h | h | h | h
        · exact absurd (Or.inl h) hlat
        · exact absurd (Or.inr h) hlat
        · exact Or.inl h
        · exact Or.inr h
      rw [get_representatives_by_coordinates, if_neg hlat, if_pos hlng]
      exact ⟨rfl, _, rfl⟩
  · rintro ⟨h1, h2, h3, h4⟩
    rw [get_representatives_by_coordinates,
      if_neg (by rintro (hl | hl) <;> linarith),
      if_neg (by rintro (hl | hl) <;> linarith)]

/-- Witness for C8: latitude 91 is rejected without a network call, and
the boundary point (90, 180) passes validation. -/
theorem coordinates_validated_witness :
    ((get_representatives_by_coordinates 91 0 emptyGetReps).2 = false ∧
      ∃ msg, (get_representatives_by_coordinates 91 0 emptyGetReps).1 =
        Except.error ⟨ErrorCode.INVALID_COORDINATES, msg, 400⟩) ∧
    get_representatives_by_coordinates 90 180 emptyGetReps =
      (emptyGetReps 90 180, true) :=
  ⟨(coordinates_validated 91 0 emptyGetReps).1 (by norm_num),
   (coordinates_validated 90 180 emptyGetReps).2 (by norm_num)⟩

/-! ### C9: order of `metadata.government_levels` -/

/-- Lexicographic (code-point) order on character lists — the string order
used by Python's `sorted`. -/
def strLeChars : List Char → List Char → Bool
  | [], _ => true
  | _ :: _, [] => false
  | a :: as, b :: bs => if a < b then true else if a = b then strLeChars as bs else false

/-- Python's string comparison `a <= b`. -/
def strLe (a b : String) : Bool := strLeChars a.data b.data

/-- Whether a list of strings is sorted in Python's `sorted` order. -/
def isSortedStrings : List String → Bool
  | [] => true
  | [_] => true
  | a :: b :: rest => strLe a b && isSortedStrings (b :: rest)

/-- A state-tier representative for the C9 counterexample. -/
def sampleStateRep : Rep :=
  { sampleUnknownRep with id := some "ocd-person/s1", government_level := "state" }

/-- A local-tier representative for the C9 counterexample. -/
def sampleLocalRep : Rep :=
  { sampleUnknownRep with id := some "ocd-person/l1", government_level := "local" }

/-- A geocoder resolving every address to a fixed point. -/
def fixedGeocode : String → Option GeoResult :=
  fun _ => some ⟨0, 0, "1 Example St, Example City"⟩

/-- A directory oracle returning one state and one local representative. -/
def stateLocalGetReps : ℚ → ℚ → Except ApiError (List Rep) :=
  fun _ _ => .ok [sampleStateRep, sampleLocalRep]

/-- Counterexample to C9 as stated: with one state and one local kept
representative, the response metadata lists the government levels as
`["state", "local"]` — the dictionary insertion order federal, state,
local — which is not sorted (Python's `sorted` would give
`["local", "state"]`). -/
theorem government_levels_not_sorted_cex :
    (match handle "1 Example St" fixedGeocode stateLocalGetReps with
      | .ok resp => resp.metadata.government_levels
      | .error _ => []) = ["state", "local"] ∧
    isSortedStrings ["state", "local"] = false ∧
    isSortedStrings ["local", "state"] = true := by
  refine ⟨by rfl, by decide, by decide⟩

/-- The bucket a representative is appended to: its own tier for the three
known keys, `"state"` otherwise. -/
def bucketKey (r : Rep) : String :=
  if r.government_level = "federal" then "federal"
  else if r.government_level = "local" then "local"
  else "state"

theorem filter_length_pos {p : Rep → Bool} {l : List Rep} :
    0 < (l.filter p).length ↔ ∃ r ∈ l, p r = true := by
  rw [List.length_pos, Ne, List.filter_eq_nil_iff]
  push_neg
  simp

/-- C9 (amended): the metadata `government_levels` list contains exactly
the tiers that have at least one kept representative, but in the fixed
grouping order federal, state, local (a sublist of the key order of the
grouped mapping), not sorted alphabetically; and every successful handler
response carries exactly that list in its metadata. -/
theorem government_levels_amended (reps : List Rep) :
    (∀ t, t ∈ governmentLevels (group_by_government_level reps) ↔
      ∃ r ∈ reps, bucketKey r = t) ∧
    List.Sublist (governmentLevels (group_by_government_level reps))
      ["federal", "state", "local"] ∧
    (∀ (address : String) (geocode : String → Option GeoResult)
        (getRepsByCoords : ℚ → ℚ → Except ApiError (List Rep)) resp,
      handle address geocode getRepsByCoords = Except.ok resp →
      resp.metadata.government_levels = governmentLevels resp.representatives) := by
  refine ⟨?_, ?_, ?_⟩
  · intro t
    rw [group_characterization]
    constructor
    · intro ht
      simp only [governmentLevels, List.mem_map, List.mem_filter] at ht
      obtain ⟨⟨k, v⟩, ⟨hkv, hpos⟩, ht⟩ := ht
      simp only [List.mem_cons, List.not_mem_nil, or_false, Prod.mk.injEq] at hkv
      simp only [gt_iff_lt, decide_eq_true_eq] at hpos
      rcases hkv with ⟨hk, hv⟩ | ⟨hk, hv⟩ | ⟨hk, hv⟩
      · rw [hv] at hpos
        obtain ⟨r, hr, hp⟩ := filter_length_pos.1 hpos
        simp only [decide_eq_true_eq] at hp
        refine ⟨r, hr, ?_⟩
        rw [← ht, hk]
        simp [bucketKey, hp]
      · rw [hv] at hpos
        obtain ⟨r, hr, hp⟩ := filter_length_pos.1 hpos
        simp only [decide_eq_true_eq] at hp
        refine ⟨r, hr, ?_⟩
        rw [← ht, hk]
        simp [bucketKey, hp.1, hp.2]
      · rw [hv] at hpos
        obtain ⟨r, hr, hp⟩ := filter_length_pos.1 hpos
        simp only [decide_eq_true_eq] at hp
        refine ⟨r, hr, ?_⟩
        rw [← ht, hk]
        have hnf : ¬r.government_level = "federal" := by rw [hp]; simp
        simp [bucketKey, hp, hnf]
    · rintro ⟨r, hr, hbk⟩
      simp only [governmentLevels, List.mem_map, List.mem_filter]
      by_cases h1 : r.government_level = "federal"
      · have hpos : 0 < (reps.filter (fun q => q.government_level = "federal")).length :=
          filter_length_pos.2 ⟨r, hr, by simp [h1]⟩
        have ht : t = "federal" := by rw [← hbk]; simp [bucketKey, h1]
        exact ⟨("federal", reps.filter (fun q => q.government_level = "federal")),
          ⟨by simp, by simpa using hpos⟩, ht.symm⟩
      · by_cases h2 : r.government_level = "local"
        · have hpos : 0 < (reps.filter (fun q => q.government_level = "local")).length :=
            filter_length_pos.2 ⟨r, hr, by simp [h2]⟩
          have ht : t = "local" := by rw [← hbk]; simp [bucketKey, h1, h2]
          exact ⟨("local", reps.filter (fun q => q.government_level = "local")),
            ⟨by simp, by simpa using hpos⟩, ht.symm⟩
        · have hpos : 0 < (reps.filter (fun q =>
              q.government_level ≠ "federal" ∧ q.government_level ≠ "local")).length :=
            filter_length_pos.2 ⟨r, hr, by simp [h1, h2]⟩
          have ht : t = "state" := by rw [← hbk]; simp [bucketKey, h1, h2]
          exact ⟨("state", reps.filter (fun q =>
              q.government_level ≠ "federal" ∧ q.government_level ≠ "local")),
            ⟨by simp, by simpa using hpos⟩, ht.symm⟩
  · rw [group_characterization]
    have hsub := (List.filter_sublist (p := fun kv => kv.2.length > 0)
      [("federal", reps.filter (fun r => r.government_level = "federal")),
       ("state", reps.filter (fun r =>
         r.government_level ≠ "federal" ∧ r.government_level ≠ "local")),
       ("local", reps.filter (fun r => r.government_level = "local"))]).map Prod.fst
    simpa [governmentLevels] using hsub
  · intro address geocode getRepsByCoords resp h
    rw [handle] at h
    split at h
    · exact absurd h (by simp)
    · split at h
      · exact absurd h (by simp)
      · split at h
        · exact absurd h (by simp)
        · simp only [Except.ok.injEq] at h
          rw [← h]

/-- Witness for the amended C9: applying the characterization at the
counterexample's two-representative list shows `"state"` is listed (it has
a kept representative). -/
theorem government_levels_amended_witness :
    "state" ∈ governmentLevels (group_by_government_level
      [sampleStateRep, sampleLocalRep]) :=
  ((government_levels_amended [sampleStateRep, sampleLocalRep]).1 "state").2
    ⟨sampleStateRep, by simp, by rfl⟩

end RepresentApp
